import Mathlib

/-!
Verification development for the VYT-PIPE papercut/stencil panel builder.

The Python sources are shallowly embedded as executable Lean functions:

* grayscale images (`GrayImg`) are total functions `ℕ → ℕ → ℕ` together with a
  width and a height (pixel values live in `0..255` for images produced by the
  pipeline; the embedding keeps them as `ℕ`);
* binary ("mode 1") masks (`BinImg`) are `ℕ → ℕ → Bool` with a width and a
  height;
* Pillow's `MaxFilter`/`MinFilter` rank filters expand the image by replicating
  edge pixels (`ImagingExpand`), which is embedded by clamping sample
  coordinates into the canvas;
* Python's `round` (banker's rounding, round-half-to-even) is embedded as
  `pyRound` over `ℚ`; all real arithmetic of the sources is carried out in `ℚ`;
* the two flood-fill routines of `make_papercut_panel.py` (Pillow's
  `ImageDraw.floodfill` seeded at `(0, 0)` and the BFS fallback seeded at every
  border pixel) are embedded as monotone frontier iterations on list-of-list
  grids, run until a round marks nothing new, with `w * h` rounds of fuel — an
  upper bound on the rounds either worklist loop can perform;
* Pillow's Gaussian blur (used only by `smooth_binary_edges`) performs float32
  arithmetic; it is abstracted as an explicit function parameter
  (`gauss : ℚ → GrayImg → GrayImg`), and every theorem about
  `build_masks_from_gray` is proved for *all* possible behaviours of that
  parameter.  `BoxBlur(1)` and `FIND_EDGES` are embedded exactly (their
  fixed-point/float computations are exact for 8-bit inputs, see `box3`).
-/

namespace VytPipe

attribute [local semireducible] Rat.add Rat.mul Rat.inv Rat.sub

/-- Python's built-in `round`: round half to even, on exact rationals. -/
def pyRound (q : ℚ) : ℤ :=
  let f : ℤ := ⌊q⌋
  let r : ℚ := q - f
  if r < 1/2 then f
  else if 1/2 < r then f + 1
  else if f % 2 = 0 then f else f + 1

/-- A grayscale ("L" mode) image: width, height and a total pixel function. -/
structure GrayImg where
  w : ℕ
  h : ℕ
  pix : ℕ → ℕ → ℕ

/-- A binary ("1" mode) mask: width, height and a total pixel function. -/
structure BinImg where
  w : ℕ
  h : ℕ
  pix : ℕ → ℕ → Bool

/-- `Image.convert("L")` applied to a mode-"1" mask: `True ↦ 255`, `False ↦ 0`. -/
def toL (m : BinImg) : GrayImg :=
  ⟨m.w, m.h, fun x y => if m.pix x y then 255 else 0⟩

/-- Clamp a sample index into `[0, n-1]`; together with truncated `ℕ`
subtraction this embeds Pillow's edge-replicating `ImagingExpand`. -/
def clampIdx (i n : ℕ) : ℕ := min i (n - 1)

/-- The multiset of samples a `size × size` rank filter window sees at `(x, y)`
(edge pixels replicated, margin `size / 2`). -/
def windowVals (g : GrayImg) (size x y : ℕ) : List ℕ :=
  (List.range size).flatMap fun dy =>
    (List.range size).map fun dx =>
      g.pix (clampIdx (x + dx - size / 2) g.w) (clampIdx (y + dy - size / 2) g.h)

/-- `ImageFilter.MaxFilter(size)`. -/
def maxFilter (size : ℕ) (g : GrayImg) : GrayImg :=
  ⟨g.w, g.h, fun x y => (windowVals g size x y).foldr max 0⟩

/-- `ImageFilter.MinFilter(size)`. -/
def minFilter (size : ℕ) (g : GrayImg) : GrayImg :=
  ⟨g.w, g.h, fun x y => (windowVals g size x y).foldr min 255⟩

/-- `img.point(lambda v: 255 if v >= 128 else 0, mode="1")`. -/
def pointGe128 (g : GrayImg) : BinImg :=
  ⟨g.w, g.h, fun x y => decide (128 ≤ g.pix x y)⟩

/-- `img.point(lambda v: 255 if v > 0 else 0, mode="1")`. -/
def pointGt0 (g : GrayImg) : BinImg :=
  ⟨g.w, g.h, fun x y => decide (0 < g.pix x y)⟩

/-- `gray.point(lambda g: 255 if g < t else 0, mode="1")` (thresholds are
Python ints, hence `ℤ`). -/
def pointLtInt (g : GrayImg) (t : ℤ) : BinImg :=
  ⟨g.w, g.h, fun x y => decide ((g.pix x y : ℤ) < t)⟩

/-- `gray.point(lambda d: 255 if d >= t else 0, mode="1")`. -/
def pointGeInt (g : GrayImg) (t : ℤ) : BinImg :=
  ⟨g.w, g.h, fun x y => decide (t ≤ (g.pix x y : ℤ))⟩

/-- `ImageChops.logical_and`. -/
def logicalAnd (a b : BinImg) : BinImg :=
  ⟨a.w, a.h, fun x y => a.pix x y && b.pix x y⟩

/-- `ImageChops.logical_or`. -/
def logicalOr (a b : BinImg) : BinImg :=
  ⟨a.w, a.h, fun x y => a.pix x y || b.pix x y⟩

/-- `ImageChops.invert` on a mode-"1" mask. -/
def invertMask (a : BinImg) : BinImg :=
  ⟨a.w, a.h, fun x y => !a.pix x y⟩

/-- `mask.getbbox() is not None`: the mask has at least one foreground pixel. -/
def anyTrue (m : BinImg) : Bool :=
  (List.range m.h).any fun y => (List.range m.w).any fun x => m.pix x y

/-- `_apply_closing` (make_papercut_panel.py, lines 201-208): grow-then-shrink
with an odd `max(3, 2*radius+1)` kernel, re-binarised at 128; no-op for
`radius <= 0`. -/
def applyClosing (m : BinImg) (radius : ℤ) : BinImg :=
  if radius ≤ 0 then m
  else
    pointGe128 (minFilter (max 3 (2 * radius + 1)).toNat
      (maxFilter (max 3 (2 * radius + 1)).toNat (toL m)))

/-- The eroded-and-rebinarised mask computed inside `extract_outline`
(make_papercut_panel.py, lines 211-225); the `radius < 1` coercion to 1 is
embedded as `max radius 1`. -/
def outlineEroded (m : BinImg) (radius : ℤ) : BinImg :=
  pointGe128 (minFilter (max 3 (2 * max radius 1 + 1)).toNat (toL m))

/-- `extract_outline` (make_papercut_panel.py, lines 211-225):
`outline = mask AND NOT eroded`. -/
def extractOutline (m : BinImg) (radius : ℤ) : BinImg :=
  logicalAnd m (invertMask (outlineEroded m radius))

/-- Pixel-for-pixel equality of two masks over their (equal) canvases. -/
def maskEq (a b : BinImg) : Prop :=
  a.w = b.w ∧ a.h = b.h ∧ ∀ x < a.w, ∀ y < a.h, a.pix x y = b.pix x y

instance (a b : BinImg) : Decidable (maskEq a b) := by
  unfold maskEq; infer_instance

/-! ## Grids and the two flood-fill routines

`fill_closed_regions` runs Pillow's `ImageDraw.floodfill` (a frontier worklist
seeded at pixel `(0, 0)` that spreads, with `thresh=0`, over the 4-connected
pixels whose value equals the seed pixel's original value) and
`_fill_closed_regions_python` runs a BFS over a deque seeded at every
non-blocked border pixel.  Both worklist loops are embedded as monotone
frontier iterations over a materialised `List (List Bool)` grid, run until a
round marks nothing new; `w * h` rounds of fuel certify termination, since
every non-final round marks at least one previously unmarked pixel. -/

/-- A materialised boolean grid, row-major: `g[y][x]`. -/
abbrev Grid := List (List Bool)

/-- Read a grid cell; out-of-range reads are `false`. -/
def Grid.get (g : Grid) (x y : ℕ) : Bool := (g.getD y []).getD x false

/-- Materialise a `w × h` grid from a pixel function. -/
def tabulate (w h : ℕ) (f : ℕ → ℕ → Bool) : Grid :=
  (List.range h).map fun y => (List.range w).map fun x => f x y

/-- The materialised grid of a mask. -/
def BinImg.toGrid (m : BinImg) : Grid := tabulate m.w m.h m.pix

/-- A mask whose pixel function reads a grid. -/
def BinImg.ofGrid (w h : ℕ) (g : Grid) : BinImg := ⟨w, h, fun x y => g.get x y⟩

theorem Grid.get_tabulate (w h : ℕ) (f : ℕ → ℕ → Bool) {x y : ℕ}
    (hx : x < w) (hy : y < h) : (tabulate w h f).get x y = f x y := by
  unfold tabulate Grid.get
  simp [List.getD, List.getElem?_map, List.getElem?_range, hx, hy]

theorem tabulate_congr (w h : ℕ) (f f' : ℕ → ℕ → Bool)
    (hf : ∀ x < w, ∀ y < h, f x y = f' x y) : tabulate w h f = tabulate w h f' := by
  unfold tabulate
  refine List.map_congr_left fun y hy => List.map_congr_left fun x hx => ?_
  exact hf x (List.mem_range.mp hx) y (List.mem_range.mp hy)

theorem toGrid_ofGrid (w h : ℕ) (f : ℕ → ℕ → Bool) :
    (BinImg.ofGrid w h (tabulate w h f)).toGrid = tabulate w h f := by
  unfold BinImg.toGrid BinImg.ofGrid
  exact tabulate_congr w h _ f fun x hx y hy => Grid.get_tabulate w h f hx hy

theorem maskEq_of_toGrid (a b : BinImg) (hw : a.w = b.w) (hh : a.h = b.h)
    (hg : a.toGrid = b.toGrid) : maskEq a b := by
  refine ⟨hw, hh, fun x hx y hy => ?_⟩
  unfold BinImg.toGrid at hg
  rw [← hw, ← hh] at hg
  calc a.pix x y = (tabulate a.w a.h a.pix).get x y :=
        (Grid.get_tabulate a.w a.h a.pix hx hy).symm
    _ = (tabulate a.w a.h b.pix).get x y := by rw [hg]
    _ = b.pix x y := Grid.get_tabulate a.w a.h b.pix hx hy

/-- One round of frontier expansion: a cell joins the marked set when its fill
condition holds and one of its 4-neighbours is already marked. -/
def floodStep (w h : ℕ) (fillCond : ℕ → ℕ → Bool) (cur : Grid) : Grid :=
  tabulate w h fun x y =>
    cur.get x y ||
      (fillCond x y &&
        ((decide (0 < x) && cur.get (x - 1) y) || cur.get (x + 1) y ||
          (decide (0 < y) && cur.get x (y - 1)) || cur.get x (y + 1)))

/-- The worklist loop: keep expanding the frontier until a round marks
nothing new (Pillow's `while edge:` / the fallback's `while q:`); the fuel
only certifies termination — every non-final round marks at least one new
pixel, so `w * h` rounds always suffice. -/
def floodLoop (w h : ℕ) (fillCond : ℕ → ℕ → Bool) : ℕ → Grid → Grid
  | 0, s => s
  | fuel + 1, s =>
    let s2 := floodStep w h fillCond s
    if s2 = s then s else floodLoop w h fillCond fuel s2

/-- Run the frontier expansion to completion. -/
def floodIter (w h : ℕ) (fillCond : ℕ → ℕ → Bool) (seed : Grid) : Grid :=
  floodLoop w h fillCond (w * h) seed

/-- `ImageDraw.floodfill(flood_img, (0, 0), 128, thresh=0)` followed by
`point(v == 128)`: the 4-connected component, containing `(0, 0)`, of the
pixels whose value equals the original value of pixel `(0, 0)` (the seed pixel
itself is always recoloured).  The wall mask is materialised first, as the
source reads a loaded pixel buffer. -/
def outsideFloodGrid (m : BinImg) : Grid :=
  let b := m.toGrid
  floodIter m.w m.h (fun x y => b.get x y == b.get 0 0)
    (tabulate m.w m.h fun x y => decide (x = 0 ∧ y = 0))

/-- The BFS of `_fill_closed_regions_python`: spread over non-blocked pixels
from every non-blocked border pixel (again over the materialised buffer). -/
def outsideBfsGrid (m : BinImg) : Grid :=
  let b := m.toGrid
  floodIter m.w m.h (fun x y => !b.get x y)
    (tabulate m.w m.h fun x y =>
      !b.get x y && decide (x = 0 ∨ y = 0 ∨ x + 1 = m.w ∨ y + 1 = m.h))

/-- `solid = invert(outside); interior = solid AND NOT blocked`. -/
def interiorOfOutside (m : BinImg) (outside : Grid) : Grid :=
  tabulate m.w m.h fun x y => !outside.get x y && !m.pix x y

/-- The wall mask built by `fill_closed_regions` (lines 274-280): the outline,
optionally pre-dilated by `MaxFilter(max(3, 2*r+1))`, re-binarised at `v > 0`. -/
def blockedBinaryOf (outline : BinImg) (dilationRadius : ℤ) : BinImg :=
  pointGt0 (if 0 < dilationRadius then
      maxFilter (max 3 (2 * dilationRadius + 1)).toNat (toL outline)
    else toL outline)

/-- `fill_closed_regions` (make_papercut_panel.py, lines 264-297), fast path:
Pillow flood fill from `(0, 0)` classifies "outside"; the interior is
`NOT outside AND NOT blocked`; an empty canvas yields the all-background
mask. -/
def fillClosedRegions (outline : BinImg) (dilationRadius : ℤ) : BinImg :=
  let blocked := blockedBinaryOf outline dilationRadius
  ⟨blocked.w, blocked.h,
    if blocked.w = 0 ∨ blocked.h = 0 then fun _ _ => false
    else fun x y => (interiorOfOutside blocked (outsideFloodGrid blocked)).get x y⟩

/-- `_fill_closed_regions_python` (make_papercut_panel.py, lines 228-261): BFS
from all border pixels classifies "outside"; the interior is
`NOT outside AND NOT blocked`. -/
def fillClosedRegionsPython (blocked : BinImg) : BinImg :=
  ⟨blocked.w, blocked.h,
    if blocked.w = 0 ∨ blocked.h = 0 then fun _ _ => false
    else fun x y => (interiorOfOutside blocked (outsideBfsGrid blocked)).get x y⟩

/-- `fill_closed_regions` with the BFS fallback substituted for the Pillow
flood fill (the `except AttributeError` branch, line 293). -/
def fillClosedRegionsViaPython (outline : BinImg) (dilationRadius : ℤ) : BinImg :=
  fillClosedRegionsPython (blockedBinaryOf outline dilationRadius)

theorem tabulate_get (w h : ℕ) (f : ℕ → ℕ → Bool) :
    tabulate w h (fun x y => (tabulate w h f).get x y) = tabulate w h f :=
  tabulate_congr w h _ f fun x hx y hy => Grid.get_tabulate w h f hx hy

theorem fillClosedRegions_toGrid (outline : BinImg) (r : ℤ)
    (hne : ¬((blockedBinaryOf outline r).w = 0 ∨ (blockedBinaryOf outline r).h = 0)) :
    (fillClosedRegions outline r).toGrid =
      interiorOfOutside (blockedBinaryOf outline r)
        (outsideFloodGrid (blockedBinaryOf outline r)) := by
  unfold fillClosedRegions BinImg.toGrid
  dsimp only
  rw [if_neg hne]
  exact tabulate_get _ _ _

theorem fillClosedRegionsViaPython_toGrid (outline : BinImg) (r : ℤ)
    (hne : ¬((blockedBinaryOf outline r).w = 0 ∨ (blockedBinaryOf outline r).h = 0)) :
    (fillClosedRegionsViaPython outline r).toGrid =
      interiorOfOutside (blockedBinaryOf outline r)
        (outsideBfsGrid (blockedBinaryOf outline r)) := by
  unfold fillClosedRegionsViaPython fillClosedRegionsPython BinImg.toGrid
  dsimp only
  rw [if_neg hne]
  exact tabulate_get _ _ _

/-- The two fill paths agree on an outline mask whenever their classifications
of "outside" produce the same interior grid; the dimensions always agree. -/
theorem fillParity_of_grids (outline : BinImg) (r : ℤ)
    (hne : ¬((blockedBinaryOf outline r).w = 0 ∨ (blockedBinaryOf outline r).h = 0))
    (hg : interiorOfOutside (blockedBinaryOf outline r)
        (outsideFloodGrid (blockedBinaryOf outline r)) =
      interiorOfOutside (blockedBinaryOf outline r)
        (outsideBfsGrid (blockedBinaryOf outline r))) :
    maskEq (fillClosedRegions outline r) (fillClosedRegionsViaPython outline r) := by
  refine maskEq_of_toGrid _ _ rfl rfl ?_
  rw [fillClosedRegions_toGrid outline r hne, fillClosedRegionsViaPython_toGrid outline r hne, hg]

/-! ## Exact point filters used by `detect_relative_dark_regions` -/

/-- One 3-tap box-blur pass value: Pillow's fixed-point
`(sum * (2^24 / 3) + 2^23) >> 24` equals `⌊sum / 3 + 1/2⌋ = (2*sum + 3) / 6`
for 8-bit sums. -/
def boxTap (a b c : ℕ) : ℕ := (2 * (a + b + c) + 3) / 6

/-- Horizontal pass of `ImageFilter.BoxBlur(1)` (edge pixels replicated). -/
def boxH (g : GrayImg) : GrayImg :=
  ⟨g.w, g.h, fun x y =>
    boxTap (g.pix (x - 1) y) (g.pix x y) (g.pix (clampIdx (x + 1) g.w) y)⟩

/-- Vertical pass of `ImageFilter.BoxBlur(1)`. -/
def boxV (g : GrayImg) : GrayImg :=
  ⟨g.w, g.h, fun x y =>
    boxTap (g.pix x (y - 1)) (g.pix x y) (g.pix x (clampIdx (y + 1) g.h))⟩

/-- `ImageFilter.BoxBlur(1)`: a horizontal then a vertical 3-tap pass. -/
def box3 (g : GrayImg) : GrayImg := boxV (boxH g)

/-- Clip an integer intensity into `0..255`. -/
def clip255 (v : ℤ) : ℕ := (max 0 (min 255 v)).toNat

/-- `ImageFilter.FIND_EDGES`: the 3×3 kernel `8·center − Σ neighbours`
(clipped) on interior pixels; Pillow's `ImagingFilter` copies the one-pixel
border unchanged from the input. -/
def findEdges (g : GrayImg) : GrayImg :=
  ⟨g.w, g.h, fun x y =>
    if x = 0 ∨ y = 0 ∨ x + 1 = g.w ∨ y + 1 = g.h then g.pix x y
    else clip255 (8 * (g.pix x y : ℤ) -
      ((g.pix (x - 1) (y - 1) : ℤ) + g.pix x (y - 1) + g.pix (x + 1) (y - 1) +
        g.pix (x - 1) y + g.pix (x + 1) y +
        g.pix (x - 1) (y + 1) + g.pix x (y + 1) + g.pix (x + 1) (y + 1)))⟩

/-- `ImageChops.subtract(a, b)` with default scale/offset: pixelwise
`max(0, a - b)` (the difference of 8-bit values never exceeds 255). -/
def subtractClip (a b : GrayImg) : GrayImg :=
  ⟨a.w, a.h, fun x y => a.pix x y - b.pix x y⟩

/-- `detect_relative_dark_regions` (make_papercut_panel.py, lines 337-372). -/
def detectRelativeDarkRegions (g : GrayImg) (paperCandidate : BinImg)
    (tBg tDetail : ℤ) : BinImg :=
  if anyTrue paperCandidate = false then ⟨g.w, g.h, fun _ _ => false⟩
  else
    let localMean := box3 g
    let localMin := minFilter 3 g
    let localDrop := subtractClip localMean localMin
    let relativeMargin : ℤ := max 6 ((tBg - tDetail).fdiv 3)
    let relCandidates0 := pointGeInt localDrop relativeMargin
    let nearBg := pointLtInt g (tBg - 2)
    let relCandidates1 := logicalAnd (logicalAnd relCandidates0 nearBg) paperCandidate
    let edgeMap := findEdges g
    let edgeThresh : ℤ := max 20 (min 96 ((tBg - tDetail) * 2 + 16))
    let edgeMask := logicalAnd (pointGeInt edgeMap edgeThresh) paperCandidate
    let relCandidates2 :=
      if anyTrue edgeMask then
        logicalAnd relCandidates1
          (fillClosedRegions (applyClosing edgeMask 1) 1)
      else relCandidates1
    applyClosing relCandidates2 1

/-! ## Detail-gap bridging (abstract Gaussian blur)

`smooth_binary_edges` applies Pillow's float32 Gaussian blur before
re-binarising at 128.  Floating-point blur is not embedded bit-exactly;
instead the blur primitive is an explicit parameter `gauss`, and every theorem
below holds for every possible behaviour of it. -/

/-- The type of models of `ImageFilter.GaussianBlur(radius)` on "L" images. -/
abbrev GaussModel := ℚ → GrayImg → GrayImg

/-- `smooth_binary_edges` (make_papercut_panel.py, lines 311-318). -/
def smoothBinaryEdges (gauss : GaussModel) (mask : BinImg) (radius : ℚ) : BinImg :=
  if radius ≤ 0 then mask
  else pointGe128 (gauss radius (toL mask))

/-- `connect_detail_gaps` (make_papercut_panel.py, lines 321-334). -/
def connectDetailGaps (gauss : GaussModel) (mask : BinImg) (joinRadius : ℤ)
    (smoothRadius : ℚ) : BinImg :=
  let result := if 0 < joinRadius then
      logicalOr mask (applyClosing mask joinRadius)
    else mask
  if 0 < smoothRadius then smoothBinaryEdges gauss result smoothRadius else result

/-! ## The dual-threshold segmenter -/

/-- `BWParams` (make_papercut_panel.py, lines 128-134). -/
structure BWParams where
  threshold_bg : ℤ
  threshold_detail : ℤ
  blur : ℚ
  dilate_px : ℤ
  antialias_radius : ℚ
  detail_join_px : ℤ

/-- `MaskResult` (make_papercut_panel.py, lines 138-142). -/
structure MaskResult where
  paper : BinImg
  filled : BinImg
  holes : BinImg
  outline : BinImg

/-- `t_bg = max(0, min(255, params.threshold_bg))` (line 391). -/
def tBgOf (p : BWParams) : ℤ := max 0 (min 255 p.threshold_bg)

/-- `t_detail = max(0, min(t_bg, params.threshold_detail))` (line 392). -/
def tDetailOf (p : BWParams) : ℤ := max 0 (min (tBgOf p) p.threshold_detail)

/-- `outline_raw` (line 394). -/
def outlineRaw (g : GrayImg) (p : BWParams) : BinImg := pointLtInt g (tBgOf p)

/-- `outline_closed` (line 395). -/
def outlineClosed (g : GrayImg) (p : BWParams) : BinImg :=
  applyClosing (outlineRaw g p) p.dilate_px

/-- `combined_outline` (line 396): the `.outline` field of the result. -/
def combinedOutline (g : GrayImg) (p : BWParams) : BinImg :=
  logicalOr (outlineRaw g p) (outlineClosed g p)

/-- `fill_radius` (line 398). -/
def fillRadiusOf (p : BWParams) : ℤ := if 0 < p.dilate_px then p.dilate_px else 0

/-- `filled` (line 399): the `.filled` field of the result; also
`paper_candidate` (line 400). -/
def filledMask (g : GrayImg) (p : BWParams) : BinImg :=
  fillClosedRegions (outlineClosed g p) (fillRadiusOf p)

/-- `holes_raw` (line 402). -/
def holesRaw (g : GrayImg) (p : BWParams) : BinImg := pointLtInt g (tDetailOf p)

/-- `holes_seed` before the relative-darkness merge (line 403). -/
def holesSeed0 (g : GrayImg) (p : BWParams) : BinImg :=
  logicalAnd (holesRaw g p) (filledMask g p)

/-- `holes_rel` (line 406). -/
def holesRel (g : GrayImg) (p : BWParams) : BinImg :=
  detectRelativeDarkRegions g (filledMask g p) (tBgOf p) (tDetailOf p)

/-- `holes_seed` after the conditional merge (lines 407-408). -/
def holesSeed (g : GrayImg) (p : BWParams) : BinImg :=
  if anyTrue (holesRel g p) then logicalOr (holesSeed0 g p) (holesRel g p)
  else holesSeed0 g p

/-- `hole_close_radius` (line 410). -/
def holeCloseRadiusOf (p : BWParams) : ℤ :=
  if 0 < p.dilate_px then p.dilate_px else 0

/-- `holes_refined` (line 411). -/
def holesRefined (g : GrayImg) (p : BWParams) : BinImg :=
  applyClosing (holesSeed g p) (holeCloseRadiusOf p)

/-- `detail_outline` (line 413). -/
def detailOutline (g : GrayImg) (p : BWParams) : BinImg :=
  extractOutline (holesRefined g p) 1

/-- `outline_bridge` (line 414). -/
def outlineBridgeOf (p : BWParams) : ℤ := max p.dilate_px p.detail_join_px

/-- `detail_outline_closed` (line 415). -/
def detailOutlineClosed (g : GrayImg) (p : BWParams) : BinImg :=
  applyClosing (detailOutline g p) (outlineBridgeOf p)

/-- `detail_filled` (line 416). -/
def detailFilled (g : GrayImg) (p : BWParams) : BinImg :=
  fillClosedRegions (detailOutlineClosed g p) (outlineBridgeOf p)

/-- `holes_combined` (line 418). -/
def holesCombined (g : GrayImg) (p : BWParams) : BinImg :=
  logicalOr (holesRefined g p) (detailFilled g p)

/-- `join_radius` (line 419). -/
def joinRadiusOf (p : BWParams) : ℤ := max 0 p.detail_join_px

/-- `join_smooth = max(0.0, join_radius * 0.35)` (line 420). -/
def joinSmoothOf (p : BWParams) : ℚ := max 0 ((joinRadiusOf p : ℚ) * (35 / 100))

/-- `holes_joined` (line 421). -/
def holesJoined (gauss : GaussModel) (g : GrayImg) (p : BWParams) : BinImg :=
  connectDetailGaps gauss (holesCombined g p) (joinRadiusOf p) (joinSmoothOf p)

/-- `holes_limited` (line 422): the `.holes` field of the result. -/
def holesLimited (gauss : GaussModel) (g : GrayImg) (p : BWParams) : BinImg :=
  logicalAnd (holesJoined gauss g p) (filledMask g p)

/-- `paper` (line 424): the `.paper` field of the result. -/
def paperMask (gauss : GaussModel) (g : GrayImg) (p : BWParams) : BinImg :=
  logicalAnd (filledMask g p) (invertMask (holesLimited gauss g p))

/-- `build_masks_from_gray` (make_papercut_panel.py, lines 390-431),
parameterised by the Gaussian-blur model used in `connect_detail_gaps`. -/
def buildMasksFromGray (gauss : GaussModel) (g : GrayImg) (p : BWParams) :
    MaskResult :=
  { paper := paperMask gauss g p
    filled := filledMask g p
    holes := holesLimited gauss g p
    outline := combinedOutline g p }

/-- A trivial Gaussian-blur model (the identity), used only to instantiate
statements that are provably independent of the blur primitive. -/
def idGauss : GaussModel := fun _ img => img

/-! ## Auto-flip decision -/

/-- Number of foreground pixels of a mask. -/
def countTrue (m : BinImg) : ℕ :=
  ∑ y ∈ Finset.range m.h, ∑ x ∈ Finset.range m.w, (if m.pix x y then 1 else 0)

/-- `_compute_mask_ratio` (make_papercut_panel.py, lines 449-456): white
pixels (`stat.sum / 255`) over total pixels, `0` for an empty canvas. -/
def computeMaskRatio (m : BinImg) : ℚ :=
  if m.w * m.h = 0 then 0 else (countTrue m : ℚ) / (m.w * m.h)

/-- Sum of the gray values over the half-open crop box `[x0, x1) × [y0, y1)`. -/
def boxPixSum (g : GrayImg) (x0 y0 x1 y1 : ℕ) : ℚ :=
  ∑ y ∈ Finset.Ico y0 y1, ∑ x ∈ Finset.Ico x0 x1, (g.pix x y : ℚ)

/-- `_box_mean` (make_papercut_panel.py, lines 474-480): mean and area of a
crop box, `(0, 0)` for a degenerate box. -/
def boxMean (g : GrayImg) (x0 y0 x1 y1 : ℕ) : ℚ × ℕ :=
  if x1 ≤ x0 ∨ y1 ≤ y0 then (0, 0)
  else (boxPixSum g x0 y0 x1 y1 / ((x1 - x0) * (y1 - y0)), (x1 - x0) * (y1 - y0))

/-- Mean intensity of a whole grayscale image (`ImageStat.Stat(gray).mean`). -/
def grayMean (g : GrayImg) : ℚ :=
  if g.w * g.h = 0 then 0 else boxPixSum g 0 0 g.w g.h / (g.w * g.h)

/-- `_border_and_center_means` (make_papercut_panel.py, lines 459-499):
area-weighted mean of a border band of thickness `max(1, round(side·frac))`
versus the mean of the interior box. -/
def borderCenterMeans (g : GrayImg) (borderFraction : ℚ) : ℚ × ℚ :=
  if g.w = 0 ∨ g.h = 0 then (0, 0)
  else
    let bw : ℕ := max 1 (pyRound ((g.w : ℚ) * borderFraction)).toNat
    let bh : ℕ := max 1 (pyRound ((g.h : ℚ) * borderFraction)).toNat
    let top := boxMean g 0 0 g.w bh
    let bottom := boxMean g 0 (g.h - bh) g.w g.h
    let left := boxMean g 0 bh bw (g.h - bh)
    let right := boxMean g (g.w - bw) bh g.w (g.h - bh)
    let borderArea : ℕ := top.2 + bottom.2 + left.2 + right.2
    let borderSum : ℚ := top.1 * top.2 + bottom.1 * bottom.2 +
      left.1 * left.2 + right.1 * right.2
    let borderMean : ℚ := if borderArea = 0 then 0 else borderSum / borderArea
    let center := boxMean g bw bh (g.w - bw) (g.h - bh)
    let centerMean : ℚ := if center.2 = 0 then grayMean g else center.1
    (borderMean, centerMean)

/-- The `--invert-mode` choices (`auto`, `keep`, `flip`). -/
inductive InvertMode where
  | auto : InvertMode
  | keep : InvertMode
  | flip : InvertMode

/-- `_should_flip_auto` (make_papercut_panel.py, lines 502-521): `flip`/`keep`
are unconditional; in `auto` mode a paper ratio `<= 0.5` keeps, otherwise the
mask is flipped exactly when `border_mean + tolerance < center_mean`. -/
def shouldFlipAuto (g : GrayImg) (maskResult : MaskResult) (mode : InvertMode)
    (tolerance : ℚ := 5) : Bool :=
  match mode with
  | .flip => true
  | .keep => false
  | .auto =>
    let paperRatio := computeMaskRatio maskResult.paper
    if paperRatio ≤ 1/2 then false
    else
      let bc := borderCenterMeans g (12 / 100)
      decide (bc.1 + tolerance < bc.2)

/-! ## Scale-adaptive radius mapping

`scale_radius` raises `max(scale_factor, 1.0)` to a float exponent; the float
power primitive is abstracted as a parameter `powf` shared by the embedding of
the code and the statement of the spec's formula. -/

/-- `scale_radius` (make_papercut_panel.py, lines 375-387). -/
def scaleRadius (powf : ℚ → ℚ → ℚ) (baseRadius : ℤ) (scaleFactor : ℚ)
    (exponent : ℚ) (clamp : Option ℤ) : ℤ :=
  if baseRadius ≤ 0 then 0
  else
    let effectiveScale := max scaleFactor 1
    let scaled := pyRound ((baseRadius : ℚ) * powf effectiveScale exponent)
    let scaled := match clamp with
      | some c => min scaled c
      | none => scaled
    max 1 scaled

/-- The formula stated by the spec, §4.5: "returns
`round(base · max(scaleFactor, 1)^exponent)`, clamped to an optional ceiling,
floored at 1 if base > 0 else 0." -/
def scaleRadiusSpec (powf : ℚ → ℚ → ℚ) (baseRadius : ℤ) (scaleFactor : ℚ)
    (exponent : ℚ) (clamp : Option ℤ) : ℤ :=
  if 0 < baseRadius then
    max 1 (match clamp with
      | some c => min (pyRound ((baseRadius : ℚ) * powf (max scaleFactor 1) exponent)) c
      | none => pyRound ((baseRadius : ℚ) * powf (max scaleFactor 1) exponent))
  else 0

/-! ## Millimetre/pixel conversions and the A4 panel layout -/

/-- `mm_to_px` (make_papercut_panel.py lines 73-74 and
src/vyt/utils/units.py lines 6-8): `round(mm * dpi / 25.4)`. -/
def mmToPx (mm : ℚ) (dpi : ℤ) : ℤ := pyRound (mm * dpi / (254 / 10))

/-- `px_to_mm` (make_papercut_panel.py, lines 77-80). -/
def pxToMm (px : ℤ) (dpi : ℤ) : ℚ :=
  if dpi ≤ 0 ∨ px ≤ 0 then 0 else (px : ℚ) / dpi * (254 / 10)

/-- `a4_size_px` (make_papercut_panel.py, lines 83-87). -/
def a4SizePx (dpi : ℤ) : ℤ × ℤ := (mmToPx 210 dpi, mmToPx 297 dpi)

/-- `PanelLayout` (make_papercut_panel.py, lines 90-95). -/
structure PanelLayout where
  dpi : ℤ
  cols : ℕ
  rows : ℕ
  margin_mm : ℚ

/-- Inner tile width: page width minus twice the margin, in pixels. -/
def innerWidthPx (l : PanelLayout) : ℤ :=
  (a4SizePx l.dpi).1 - 2 * mmToPx l.margin_mm l.dpi

/-- Inner tile height: page height minus twice the margin, in pixels. -/
def innerHeightPx (l : PanelLayout) : ℤ :=
  (a4SizePx l.dpi).2 - 2 * mmToPx l.margin_mm l.dpi

/-- `PanelLayout.tile_size_px` (make_papercut_panel.py, lines 101-109): raises
`ValueError` when a margin leaves no positive inner area; embedded as
`Except`. -/
def tileSizePx (l : PanelLayout) : Except String (ℤ × ℤ) :=
  if innerWidthPx l ≤ 0 ∨ innerHeightPx l ≤ 0 then
    .error "Margins are too large for A4 at this DPI"
  else .ok (innerWidthPx l, innerHeightPx l)

/-- `PanelLayout.panel_size_px` (make_papercut_panel.py, lines 111-114);
accessed at the start of `build_white_on_gray_panel`, so the degenerate-margin
error propagates before any mask or export work. -/
def panelSizePx (l : PanelLayout) : Except String (ℤ × ℤ) :=
  (tileSizePx l).map fun t => (l.cols * t.1, l.rows * t.2)

/-- `slice_panel_into_tiles` (make_papercut_panel.py, lines 649-658): the list
of crop boxes `(left, upper, right, lower)`; the first `tile_size_px` access
propagates the degenerate-margin error. -/
def slicePanelIntoTiles (l : PanelLayout) : Except String (List (ℤ × ℤ × ℤ × ℤ)) :=
  (tileSizePx l).map fun t =>
    (List.range l.rows).flatMap fun row =>
      (List.range l.cols).map fun col =>
        ((col : ℤ) * t.1, (row : ℤ) * t.2,
          (col : ℤ) * t.1 + t.1, (row : ℤ) * t.2 + t.2)

/-- The tile viewbox width computed by `to_tiles` (src/vyt/core/tile.py,
line 83): `a4_w_px - 2*margins_px + 2*overlap_px` — no sign check. -/
def tileWvb (dpi : ℤ) (marginsMm overlapMm : ℚ) : ℤ :=
  mmToPx 210 dpi - 2 * mmToPx marginsMm dpi + 2 * mmToPx overlapMm dpi

/-- The tile viewbox height computed by `to_tiles` (src/vyt/core/tile.py,
line 84). -/
def tileHvb (dpi : ℤ) (marginsMm overlapMm : ℚ) : ℤ :=
  mmToPx 297 dpi - 2 * mmToPx marginsMm dpi + 2 * mmToPx overlapMm dpi

/-- The geometry of `to_tiles` (src/vyt/core/tile.py, lines 72-148): for each
grid cell, the SVG viewbox `(offset_x, offset_y, tile_w_vb, tile_h_vb)`; one
tile file is emitted per cell, unconditionally. -/
def toTilesLayout (dpi : ℤ) (marginsMm overlapMm : ℚ) (cols rows : ℕ) :
    List (ℤ × ℤ × ℤ × ℤ) :=
  let tw := tileWvb dpi marginsMm overlapMm
  let th := tileHvb dpi marginsMm overlapMm
  let stepX := tw - 2 * mmToPx overlapMm dpi
  let stepY := th - 2 * mmToPx overlapMm dpi
  (List.range rows).flatMap fun row =>
    (List.range cols).map fun col =>
      ((col : ℤ) * stepX, (row : ℤ) * stepY, tw, th)

/-! ## Bridge-Width Enforcer (src/vyt/core/bridge.py)

`cv2.distanceTransform(binary, DIST_L2, 5)` computes a float32 chamfer
approximation of the Euclidean distance to the nearest background pixel; it is
abstracted as a parameter `dist`, constrained only where theorems need the one
exact fact the chamfer guarantees: a background pixel has distance `0`. -/

/-- Round-to-nearest integer square root (`saturate_cast<int at double sqrt>`
in OpenCV's `getStructuringElement`; never lands on a tie for integer
radicands). -/
def roundSqrt (n : ℕ) : ℕ :=
  if (2 * Nat.sqrt n + 1) ^ 2 ≤ 4 * n then Nat.sqrt n + 1 else Nat.sqrt n

/-- Membership of the offset `(ox - r, oy - r)` in OpenCV's
`MORPH_ELLIPSE` structuring element of size `(2r+1) × (2r+1)`. -/
def inEllipseKernel (r ox oy : ℕ) : Bool :=
  decide (((ox : ℤ) - r).natAbs ≤
    roundSqrt (r * r - ((oy : ℤ) - r).natAbs * ((oy : ℤ) - r).natAbs))

/-- `cv2.dilate` with the elliptical kernel (out-of-canvas samples ignored,
matching the default `-inf` constant border of dilation). -/
def dilateEllipse (m : BinImg) (r : ℕ) : BinImg :=
  ⟨m.w, m.h, fun x y =>
    (List.range (2 * r + 1)).any fun oy =>
      (List.range (2 * r + 1)).any fun ox =>
        inEllipseKernel r ox oy &&
          decide ((x : ℤ) + ox - r ≥ 0 ∧ (x : ℤ) + ox - r < m.w ∧
            (y : ℤ) + oy - r ≥ 0 ∧ (y : ℤ) + oy - r < m.h) &&
          m.pix ((x : ℤ) + ox - r).toNat ((y : ℤ) + oy - r).toNat⟩

/-- The binarised input of `enforce`: `mask > 127`. -/
def bridgeBinary (mask : GrayImg) : BinImg :=
  ⟨mask.w, mask.h, fun x y => decide (127 < mask.pix x y)⟩

/-- `min_bridge_px = max(1, mm_to_px(min_bridge_mm, dpi))` (bridge.py, line 21). -/
def minBridgePxOf (dpi : ℤ) (minBridgeMm : ℚ) : ℤ :=
  max 1 (mmToPx minBridgeMm dpi)

/-- `radius = max(1, int(round(min_bridge_px / 2)))` (bridge.py, line 22). -/
def bridgeRadiusOf (dpi : ℤ) (minBridgeMm : ℚ) : ℤ :=
  max 1 (pyRound ((minBridgePxOf dpi minBridgeMm : ℚ) / 2))

/-- `thin_threshold = max(1.0, min_bridge_px / 2.0)` (bridge.py, line 31). -/
def thinThresholdOf (dpi : ℤ) (minBridgeMm : ℚ) : ℚ :=
  max 1 ((minBridgePxOf dpi minBridgeMm : ℚ) / 2)

/-- The thin-region mask `dist < thin_threshold` (bridge.py, line 32). -/
def thinRegions (dist : ℕ → ℕ → ℚ) (mask : GrayImg) (dpi : ℤ)
    (minBridgeMm : ℚ) : BinImg :=
  ⟨mask.w, mask.h, fun x y => decide (dist x y < thinThresholdOf dpi minBridgeMm)⟩

/-- `enforce` (src/vyt/core/bridge.py, lines 15-45), with the distance
transform as a parameter: if no pixel is thin the mask is returned unchanged
(binarised form of the untouched file); otherwise
`reinforced = where(dilate(thin) > 0, dilate(binary), binary)`. -/
def enforceBridge (dist : ℕ → ℕ → ℚ) (mask : GrayImg) (dpi : ℤ)
    (minBridgeMm : ℚ) : BinImg :=
  let binary := bridgeBinary mask
  let thin := thinRegions dist mask dpi minBridgeMm
  if anyTrue thin = false then binary
  else
    let r := (bridgeRadiusOf dpi minBridgeMm).toNat
    let dilated := dilateEllipse binary r
    let roi := dilateEllipse thin r
    ⟨mask.w, mask.h, fun x y => if roi.pix x y then dilated.pix x y else binary.pix x y⟩

/-! ## Characterising the rank filters

On the canvas, a `(2k+1) × (2k+1)` rank-filter window with edge replication
samples exactly the pixels at Chebyshev distance at most `k` (clamped to the
canvas), which yields the usual dilation/erosion reading of
`MaxFilter`/`MinFilter` on bi-level images. -/

/-- `|a - b| ≤ k` on naturals. -/
def near (k a b : ℕ) : Prop := a ≤ b + k ∧ b ≤ a + k

theorem near_symm {k a b : ℕ} (h : near k a b) : near k b a := ⟨h.2, h.1⟩

theorem near_refl (k a : ℕ) : near k a a := ⟨Nat.le_add_right a k, Nat.le_add_right a k⟩

theorem bool_eq_of_iff {a b : Bool} (h : a = true ↔ b = true) : a = b := by
  cases a <;> cases b <;> simp_all

theorem le_foldr_max_iff (l : List ℕ) (c : ℕ) (hc : 0 < c) :
    c ≤ l.foldr max 0 ↔ ∃ a ∈ l, c ≤ a := by
  induction l with
  | nil => simp; omega
  | cons a t ih => simp [le_max_iff, ih]

theorem le_foldr_min_iff (l : List ℕ) (c : ℕ) (hc : c ≤ 255) :
    c ≤ l.foldr min 255 ↔ ∀ a ∈ l, c ≤ a := by
  induction l with
  | nil => simpa using hc
  | cons a t ih => simp [le_min_iff, ih]

theorem clampIdx_window (k x n u : ℕ) (hx : x < n) :
    (∃ d, d < 2 * k + 1 ∧ clampIdx (x + d - k) n = u) ↔ (u < n ∧ near k x u) := by
  constructor
  · rintro ⟨d, hd, rfl⟩
    unfold clampIdx near
    omega
  · rintro ⟨hu, h1, h2⟩
    refine ⟨u + k - x, by omega, ?_⟩
    unfold clampIdx
    omega

theorem mem_windowVals_iff (G : GrayImg) (k x y a : ℕ)
    (hx : x < G.w) (hy : y < G.h) :
    a ∈ windowVals G (2 * k + 1) x y ↔
      ∃ u, u < G.w ∧ near k x u ∧ ∃ v, v < G.h ∧ near k y v ∧ a = G.pix u v := by
  have hs : (2 * k + 1) / 2 = k := by omega
  unfold windowVals
  rw [hs]
  simp only [List.mem_flatMap, List.mem_range, List.mem_map]
  constructor
  · rintro ⟨dy, hdy, dx, hdx, rfl⟩
    obtain ⟨hu, hnu⟩ :=
      (clampIdx_window k x G.w (clampIdx (x + dx - k) G.w) hx).mp ⟨dx, hdx, rfl⟩
    obtain ⟨hv, hnv⟩ :=
      (clampIdx_window k y G.h (clampIdx (y + dy - k) G.h) hy).mp ⟨dy, hdy, rfl⟩
    exact ⟨_, hu, hnu, _, hv, hnv, rfl⟩
  · rintro ⟨u, hu, hnu, v, hv, hnv, rfl⟩
    obtain ⟨dx, hdx, hdxe⟩ := (clampIdx_window k x G.w u hx).mpr ⟨hu, hnu⟩
    obtain ⟨dy, hdy, hdye⟩ := (clampIdx_window k y G.h v hy).mpr ⟨hv, hnv⟩
    exact ⟨dy, hdy, dx, hdx, by rw [hdxe, hdye]⟩

theorem maxFilter_pix_char (G : GrayImg) (k c x y : ℕ) (hc : 0 < c)
    (hx : x < G.w) (hy : y < G.h) :
    c ≤ (maxFilter (2 * k + 1) G).pix x y ↔
      ∃ u, u < G.w ∧ near k x u ∧ ∃ v, v < G.h ∧ near k y v ∧ c ≤ G.pix u v := by
  unfold maxFilter
  rw [le_foldr_max_iff _ _ hc]
  constructor
  · rintro ⟨a, ha, hca⟩
    obtain ⟨u, hu, hnu, v, hv, hnv, rfl⟩ := (mem_windowVals_iff G k x y a hx hy).mp ha
    exact ⟨u, hu, hnu, v, hv, hnv, hca⟩
  · rintro ⟨u, hu, hnu, v, hv, hnv, hca⟩
    exact ⟨G.pix u v,
      (mem_windowVals_iff G k x y _ hx hy).mpr ⟨u, hu, hnu, v, hv, hnv, rfl⟩, hca⟩

theorem minFilter_pix_char (G : GrayImg) (k c x y : ℕ) (hc : c ≤ 255)
    (hx : x < G.w) (hy : y < G.h) :
    c ≤ (minFilter (2 * k + 1) G).pix x y ↔
      ∀ u, u < G.w → near k x u → ∀ v, v < G.h → near k y v → c ≤ G.pix u v := by
  unfold minFilter
  rw [le_foldr_min_iff _ _ hc]
  constructor
  · intro H u hu hnu v hv hnv
    exact H _ ((mem_windowVals_iff G k x y _ hx hy).mpr ⟨u, hu, hnu, v, hv, hnv, rfl⟩)
  · intro H a ha
    obtain ⟨u, hu, hnu, v, hv, hnv, rfl⟩ := (mem_windowVals_iff G k x y a hx hy).mp ha
    exact H u hu hnu v hv hnv

theorem toL_pix_ge (m : BinImg) (u v : ℕ) :
    128 ≤ (toL m).pix u v ↔ m.pix u v = true := by
  unfold toL
  dsimp only
  split <;> simp_all

/-- Dilation predicate: some foreground pixel of `m` within Chebyshev
distance `k` on the canvas. -/
def DilP (m : BinImg) (k x y : ℕ) : Prop :=
  ∃ u, u < m.w ∧ near k x u ∧ ∃ v, v < m.h ∧ near k y v ∧ m.pix u v = true

theorem dil_pix_char (m : BinImg) (k x y : ℕ) (hx : x < m.w) (hy : y < m.h) :
    128 ≤ (maxFilter (2 * k + 1) (toL m)).pix x y ↔ DilP m k x y := by
  rw [maxFilter_pix_char (toL m) k 128 x y (by omega) hx hy]
  unfold DilP
  constructor
  · rintro ⟨u, hu, hnu, v, hv, hnv, h⟩
    exact ⟨u, hu, hnu, v, hv, hnv, (toL_pix_ge m u v).mp h⟩
  · rintro ⟨u, hu, hnu, v, hv, hnv, h⟩
    exact ⟨u, hu, hnu, v, hv, hnv, (toL_pix_ge m u v).mpr h⟩

theorem applyClosing_w (m : BinImg) (radius : ℤ) :
    (applyClosing m radius).w = m.w := by
  unfold applyClosing
  split <;> rfl

theorem applyClosing_h (m : BinImg) (radius : ℤ) :
    (applyClosing m radius).h = m.h := by
  unfold applyClosing
  split <;> rfl

/-- For `radius ≥ 1` the closing is the erosion of the dilation with the
`(2·radius+1)`-square structuring element, with edge-replicating (clamped)
windows. -/
theorem applyClosing_pix_char (m : BinImg) (radius : ℤ) (h1 : 1 ≤ radius)
    (x y : ℕ) (hx : x < m.w) (hy : y < m.h) :
    (applyClosing m radius).pix x y = true ↔
      ∀ u, u < m.w → near radius.toNat x u →
        ∀ v, v < m.h → near radius.toNat y v → DilP m radius.toNat u v := by
  unfold applyClosing
  rw [if_neg (by omega)]
  have hsz : (max 3 (2 * radius + 1)).toNat = 2 * radius.toNat + 1 := by omega
  rw [hsz]
  show decide (128 ≤ _) = true ↔ _
  rw [decide_eq_true_iff]
  rw [minFilter_pix_char _ _ 128 x y (by omega) hx hy]
  constructor
  · intro H u hu hnu v hv hnv
    exact (dil_pix_char m radius.toNat u v hu hv).mp (H u hu hnu v hv hnv)
  · intro H u hu hnu v hv hnv
    exact (dil_pix_char m radius.toNat u v hu hv).mpr (H u hu hnu v hv hnv)

/-- C7 (spec §8, "Idempotence of closing"): `Closing(Closing(m, r), r)` equals
`Closing(m, r)` pixel-for-pixel, for every binary mask `m` and radius
`r ≥ 1`. -/
theorem closing_idempotent (m : BinImg) (radius : ℤ) (h1 : 1 ≤ radius) :
    maskEq (applyClosing (applyClosing m radius) radius) (applyClosing m radius) := by
  have hw1 := applyClosing_w m radius
  have hh1 := applyClosing_h m radius
  refine ⟨by simp only [applyClosing_w], by simp only [applyClosing_h],
    fun x hx y hy => ?_⟩
  simp only [applyClosing_w] at hx
  simp only [applyClosing_h] at hy
  apply bool_eq_of_iff
  rw [applyClosing_pix_char (applyClosing m radius) radius h1 x y
    (by rw [hw1]; exact hx) (by rw [hh1]; exact hy)]
  rw [applyClosing_pix_char m radius h1 x y hx hy]
  set k := radius.toNat with hk
  constructor
  · intro H u hu hnu v hv hnv
    obtain ⟨p, hp, hnp, q, hq, hnq, hpq⟩ :=
      H u (by rw [hw1]; exact hu) hnu v (by rw [hh1]; exact hv) hnv
    rw [hw1] at hp
    rw [hh1] at hq
    have hclos := (applyClosing_pix_char m radius h1 p q hp hq).mp hpq
    exact hclos u hu (near_symm hnp) v hv (near_symm hnq)
  · intro H u hu hnu v hv hnv
    rw [hw1] at hu
    rw [hh1] at hv
    refine ⟨x, by rw [hw1]; exact hx, near_symm hnu,
      y, by rw [hh1]; exact hy, near_symm hnv, ?_⟩
    exact (applyClosing_pix_char m radius h1 x y hx hy).mpr H

/-- Witness for `closing_idempotent` at a concrete mask and radius 1. -/
theorem closing_idempotent_witness :
    (1 : ℤ) ≤ 1 ∧
      maskEq (applyClosing (applyClosing ⟨4, 4, fun x y => decide (x = 1 ∧ y ≤ 2)⟩ 1) 1)
        (applyClosing ⟨4, 4, fun x y => decide (x = 1 ∧ y ≤ 2)⟩ 1) :=
  ⟨le_refl 1, closing_idempotent ⟨4, 4, fun x y => decide (x = 1 ∧ y ≤ 2)⟩ 1 (le_refl 1)⟩

/-- C10 (implicit, from `extract_outline`, make_papercut_panel.py lines
211-225): for every input mask and every radius (values `< 1` are coerced to
1), every foreground pixel of the returned outline is a foreground pixel of
the input mask, and the outline is disjoint from the eroded mask. -/
theorem extractOutline_subset (m : BinImg) (radius : ℤ) (x y : ℕ)
    (h : (extractOutline m radius).pix x y = true) :
    m.pix x y = true ∧ (outlineEroded m radius).pix x y = false := by
  unfold extractOutline logicalAnd invertMask at h
  dsimp only at h
  have h2 : m.pix x y = true ∧ (!(outlineEroded m radius).pix x y) = true := by
    simpa using h
  exact ⟨h2.1, by simpa using h2.2⟩

/-- Witness for `extractOutline_subset`: a 3×3 mask with only the centre set;
radius 0 exercises the coercion to 1. -/
theorem extractOutline_subset_witness :
    (extractOutline ⟨3, 3, fun x y => decide (x = 1 ∧ y = 1)⟩ 0).pix 1 1 = true ∧
      ((⟨3, 3, fun x y => decide (x = 1 ∧ y = 1)⟩ : BinImg).pix 1 1 = true ∧
        (outlineEroded ⟨3, 3, fun x y => decide (x = 1 ∧ y = 1)⟩ 0).pix 1 1 = false) :=
  ⟨by decide, extractOutline_subset ⟨3, 3, fun x y => decide (x = 1 ∧ y = 1)⟩ 0 1 1 (by decide)⟩

/-- C3 (spec §3/§8, "Mask invariant"): for every Gaussian-blur model, every
grayscale input and every parameter set, the bundle returned by
`build_masks_from_gray` satisfies, pixel for pixel, `paper = filled AND NOT
holes`, and `holes` is a subset of `filled` (stated as the absorption
equation `holes AND filled = holes`). -/
theorem maskResult_invariant (gauss : GaussModel) (g : GrayImg) (p : BWParams)
    (x y : ℕ) :
    ((buildMasksFromGray gauss g p).paper.pix x y =
        ((buildMasksFromGray gauss g p).filled.pix x y &&
          !(buildMasksFromGray gauss g p).holes.pix x y)) ∧
      (((buildMasksFromGray gauss g p).holes.pix x y &&
          (buildMasksFromGray gauss g p).filled.pix x y) =
        (buildMasksFromGray gauss g p).holes.pix x y) := by
  unfold buildMasksFromGray paperMask holesLimited logicalAnd invertMask
  dsimp only
  constructor
  · rfl
  · cases hj : (holesJoined gauss g p).pix x y <;>
      cases hf : (filledMask g p).pix x y <;> simp

/-- C8 (spec §4.5): `scale_radius` computes exactly the spec's formula
`round(base · max(scaleFactor, 1)^exponent)`, clamped to the optional ceiling,
floored at 1 for a positive base and 0 otherwise — for every model `powf` of
the float power primitive. -/
theorem scaleRadius_eq_spec (powf : ℚ → ℚ → ℚ) (baseRadius : ℤ)
    (scaleFactor exponent : ℚ) (clamp : Option ℤ) :
    scaleRadius powf baseRadius scaleFactor exponent clamp =
      scaleRadiusSpec powf baseRadius scaleFactor exponent clamp := by
  unfold scaleRadius scaleRadiusSpec
  rcases le_or_lt baseRadius 0 with hb | hb
  · rw [if_pos hb, if_neg (by omega)]
  · rw [if_neg (by omega), if_pos hb]

/-! ## C1: the auto-flip decision -/

/-- A 10×10 grayscale test image: one-pixel border band of intensity 220
around an 8×8 interior of intensity 40 (border mean 220, centre mean 40). -/
def flipGray : GrayImg :=
  ⟨10, 10, fun x y => if x = 0 ∨ y = 0 ∨ x = 9 ∨ y = 9 then 220 else 40⟩

/-- A 10×10 preview mask whose paper covers 85 of the 100 pixels
(paper ratio 0.85). -/
def flipPaper : BinImg := ⟨10, 10, fun x y => decide (y * 10 + x < 85)⟩

/-- A preview `MaskResult` carrying `flipPaper` as its paper mask. -/
def flipMasks : MaskResult := ⟨flipPaper, flipPaper, flipPaper, flipPaper⟩

/-- C1, counterexample: on an image with border mean 220, centre mean 40 and
paper ratio 0.85, `_should_flip_auto` in `auto` mode returns `False` — the
claim (and spec §4.6 / §8) demands that this image must flip.  The code flips
when the *centre* is brighter than the border
(`border_mean + tolerance < center_mean`), not when the border is brighter. -/
theorem autoFlip_claim_counterexample :
    borderCenterMeans flipGray (12 / 100) = (220, 40) ∧
      computeMaskRatio flipMasks.paper = 17 / 20 ∧
      shouldFlipAuto flipGray flipMasks .auto 5 = false := by
  refine ⟨?_, by decide, by decide⟩
  decide

/-- C1, amended: in `auto` mode, a paper ratio `≤ 0.5` always keeps; with a
ratio above 0.5 the decision is to flip exactly when the *centre* mean exceeds
the border mean by more than the tolerance (the opposite direction from the
claim). -/
theorem shouldFlipAuto_char (g : GrayImg) (mr : MaskResult) (tol : ℚ) :
    shouldFlipAuto g mr .auto tol = true ↔
      (1/2 < computeMaskRatio mr.paper ∧
        (borderCenterMeans g (12 / 100)).1 + tol < (borderCenterMeans g (12 / 100)).2) := by
  show (if computeMaskRatio mr.paper ≤ 1/2 then false
    else decide ((borderCenterMeans g (12 / 100)).1 + tol <
      (borderCenterMeans g (12 / 100)).2)) = true ↔ _
  split
  · next hle =>
    simp only [Bool.false_eq_true, false_iff, not_and]
    intro hlt
    exact absurd hle (not_le.mpr hlt)
  · next hle =>
    simp [not_le.mp (by simpa using hle)]

/-- C6 (spec §6, "mm↔px round-trip"): for every dpi in `{150, 300, 600}` and
every mm in `{0, 1, 10, 210, 297}`, `px_to_mm(mm_to_px(mm, dpi), dpi)` differs
from `mm` by at most `25.4 / dpi`. -/
theorem mmPx_roundtrip (dpi : ℤ) (hd : dpi ∈ [(150 : ℤ), 300, 600])
    (mm : ℚ) (hm : mm ∈ [(0 : ℚ), 1, 10, 210, 297]) :
    |pxToMm (mmToPx mm dpi) dpi - mm| ≤ (254 / 10) / dpi := by
  fin_cases hd <;> fin_cases hm <;> decide

/-- Witness for `mmPx_roundtrip` at dpi 300 and mm 10. -/
theorem mmPx_roundtrip_witness :
    (300 : ℤ) ∈ [(150 : ℤ), 300, 600] ∧ (10 : ℚ) ∈ [(0 : ℚ), 1, 10, 210, 297] ∧
      |pxToMm (mmToPx 10 300) 300 - 10| ≤ (254 / 10) / 300 :=
  ⟨by decide, by decide,
    mmPx_roundtrip 300 (by decide) 10 (by decide)⟩

/-- C9, amended part (make_papercut_panel.py): `tile_size_px` raises the
configuration error exactly when a margin leaves a non-positive inner tile
dimension, and both `panel_size_px` (read at the start of
`build_white_on_gray_panel`, before any mask or export work) and
`slice_panel_into_tiles` propagate that error, so no tile list is ever
produced in the degenerate case. -/
theorem tileSizePx_error_iff (l : PanelLayout) :
    ((∃ e, tileSizePx l = .error e) ↔ innerWidthPx l ≤ 0 ∨ innerHeightPx l ≤ 0) ∧
      (panelSizePx l).isOk = (tileSizePx l).isOk ∧
      (slicePanelIntoTiles l).isOk = (tileSizePx l).isOk := by
  refine ⟨?_, ?_, ?_⟩
  · unfold tileSizePx
    split
    · next hc => exact ⟨fun _ => hc, fun _ => ⟨_, rfl⟩⟩
    · next hc =>
      constructor
      · rintro ⟨e, he⟩
        cases he
      · intro hc2
        exact absurd hc2 hc
  · unfold panelSizePx
    cases tileSizePx l <;> rfl
  · unfold slicePanelIntoTiles
    cases tileSizePx l <;> rfl

/-- C9, counterexample: the alternate pipeline's `to_tiles`
(src/vyt/core/tile.py) performs no degeneracy check: with dpi 300, margins of
120 mm (exceeding half the A4 width) and no overlap, the inner tile viewbox
width is `-354 ≤ 0`, yet `to_tiles` silently emits all `2 × 2 = 4` tiles
instead of reporting a configuration error. -/
theorem toTiles_no_degeneracy_check :
    tileWvb 300 120 0 = -354 ∧ tileWvb 300 120 0 ≤ 0 ∧
      (toTilesLayout 300 120 0 2 2).length = 4 := by
  refine ⟨by decide, by decide, ?_⟩
  decide

/-! ## C5: monotonicity in the background threshold -/

theorem DilP_mono (m m' : BinImg) (hw : m.w = m'.w) (hh : m.h = m'.h)
    (hsub : ∀ x, x < m.w → ∀ y, y < m.h → m.pix x y = true → m'.pix x y = true)
    (k x y : ℕ) (h : DilP m k x y) : DilP m' k x y := by
  obtain ⟨u, hu, hnu, v, hv, hnv, hp⟩ := h
  exact ⟨u, hw ▸ hu, hnu, v, hh ▸ hv, hnv, hsub u hu v hv hp⟩

theorem applyClosing_mono (m m' : BinImg) (hw : m.w = m'.w) (hh : m.h = m'.h)
    (radius : ℤ)
    (hsub : ∀ x, x < m.w → ∀ y, y < m.h → m.pix x y = true → m'.pix x y = true)
    (x y : ℕ) (hx : x < m.w) (hy : y < m.h)
    (h : (applyClosing m radius).pix x y = true) :
    (applyClosing m' radius).pix x y = true := by
  rcases le_or_lt radius 0 with hr | hr
  · unfold applyClosing at h ⊢
    rw [if_pos hr] at h ⊢
    exact hsub x hx y hy h
  · rw [applyClosing_pix_char m radius hr x y hx hy] at h
    rw [applyClosing_pix_char m' radius hr x y (hw ▸ hx) (hh ▸ hy)]
    intro u hu hnu v hv hnv
    exact DilP_mono m m' hw hh hsub radius.toNat u v
      (h u (hw ▸ hu) hnu v (hh ▸ hv) hnv)

theorem countTrue_mono (a b : BinImg) (hw : a.w = b.w) (hh : a.h = b.h)
    (hsub : ∀ x, x < a.w → ∀ y, y < a.h → a.pix x y = true → b.pix x y = true) :
    countTrue a ≤ countTrue b := by
  unfold countTrue
  rw [← hw, ← hh]
  refine Finset.sum_le_sum fun y hy => Finset.sum_le_sum fun x hx => ?_
  have hx2 := Finset.mem_range.mp hx
  have hy2 := Finset.mem_range.mp hy
  by_cases hp : a.pix x y = true
  · rw [if_pos hp, if_pos (hsub x hx2 y hy2 hp)]
  · simp only [if_neg hp]
    split <;> omega

theorem combinedOutline_w (g : GrayImg) (p : BWParams) :
    (combinedOutline g p).w = g.w := rfl

theorem combinedOutline_h (g : GrayImg) (p : BWParams) :
    (combinedOutline g p).h = g.h := rfl

/-- C5, amended (spec §8, "Threshold monotonicity"): for a fixed grayscale
input, fixed `t_detail` and fixed morphology parameters, increasing
`threshold_bg` never decreases the foreground pixel count of the thresholded
*outline* mask returned by `build_masks_from_gray` (more pixels qualify as
below the background threshold as `t_bg` rises, and closing is monotone); the
claim's original statement about the `filled` mask is refuted separately. -/
theorem outline_count_monotone (gauss : GaussModel) (g : GrayImg)
    (pA pB : BWParams) (hbg : pA.threshold_bg ≤ pB.threshold_bg)
    (hdet : pA.threshold_detail = pB.threshold_detail) (hblur : pA.blur = pB.blur)
    (hdil : pA.dilate_px = pB.dilate_px)
    (haa : pA.antialias_radius = pB.antialias_radius)
    (hjoin : pA.detail_join_px = pB.detail_join_px) :
    countTrue (buildMasksFromGray gauss g pA).outline ≤
      countTrue (buildMasksFromGray gauss g pB).outline := by
  show countTrue (combinedOutline g pA) ≤ countTrue (combinedOutline g pB)
  have hraw : ∀ x, x < g.w → ∀ y, y < g.h →
      (outlineRaw g pA).pix x y = true → (outlineRaw g pB).pix x y = true := by
    intro x hx y hy h
    unfold outlineRaw pointLtInt tBgOf at h ⊢
    simp only [decide_eq_true_eq] at h ⊢
    omega
  refine countTrue_mono _ _ (by rw [combinedOutline_w, combinedOutline_w])
    (by rw [combinedOutline_h, combinedOutline_h]) fun x hx y hy h => ?_
  unfold combinedOutline logicalOr at h ⊢
  dsimp only at h ⊢
  have h2 : (outlineRaw g pA).pix x y = true ∨ (outlineClosed g pA).pix x y = true := by
    simpa using h
  have h3 : (outlineRaw g pB).pix x y = true ∨ (outlineClosed g pB).pix x y = true := by
    rcases h2 with h2 | h2
    · exact Or.inl (hraw x hx y hy h2)
    · refine Or.inr ?_
      unfold outlineClosed at h2 ⊢
      rw [← hdil]
      exact applyClosing_mono (outlineRaw g pA) (outlineRaw g pB) rfl rfl
        pA.dilate_px hraw x y hx hy h2
  simpa using h3

/-- Witness for `outline_count_monotone` at a concrete image and parameter
pair. -/
theorem outline_count_monotone_witness :
    countTrue (buildMasksFromGray idGauss ⟨3, 3, fun x y => if x = 1 ∧ y = 1 then 100 else 10⟩
        ⟨50, 0, 0, 1, 0, 0⟩).outline ≤
      countTrue (buildMasksFromGray idGauss ⟨3, 3, fun x y => if x = 1 ∧ y = 1 then 100 else 10⟩
        ⟨150, 0, 0, 1, 0, 0⟩).outline :=
  outline_count_monotone idGauss ⟨3, 3, fun x y => if x = 1 ∧ y = 1 then 100 else 10⟩
    ⟨50, 0, 0, 1, 0, 0⟩ ⟨150, 0, 0, 1, 0, 0⟩ (by decide) rfl rfl rfl rfl rfl

/-- A 3×3 grayscale image, intensity 10 on a ring around a centre pixel of
intensity 100. -/
def monoGray : GrayImg := ⟨3, 3, fun x y => if x = 1 ∧ y = 1 then 100 else 10⟩

/-- C5, counterexample: raising `threshold_bg` from 50 to 150 on `monoGray`
(all other parameters fixed, `detail_join_px = 0` so the result is independent
of the abstract blur primitive) *decreases* the `filled` foreground count from
1 to 0: at `t_bg = 50` the dark ring encloses the centre pixel, at
`t_bg = 150` every pixel is below the threshold, the wall fills the canvas and
the enclosed interior is empty. -/
theorem filled_count_not_monotone :
    (50 : ℤ) ≤ 150 ∧
      countTrue (buildMasksFromGray idGauss monoGray ⟨50, 0, 0, 0, 0, 0⟩).filled = 1 ∧
      countTrue (buildMasksFromGray idGauss monoGray ⟨150, 0, 0, 0, 0, 0⟩).filled = 0 := by
  refine ⟨by decide, ?_, ?_⟩ <;> decide

/-! ## C2: flood-fill parity -/

/-- Build a mask from a literal `0`/`1` grid (row-major). -/
def mkMask (rows : List (List ℕ)) : BinImg :=
  ⟨(rows.headD []).length, rows.length,
    fun x y => decide ((rows.getD y []).getD x 0 ≠ 0)⟩

/-- A 9×9 circle outline (a diamond ring of radius 2, drawn two pixels clear
of the border so that a one-pixel dilation stays border-free). -/
def circleShape : BinImg := mkMask
  [[0,0,0,0,0,0,0,0,0],
   [0,0,0,0,0,0,0,0,0],
   [0,0,0,0,1,0,0,0,0],
   [0,0,0,1,0,1,0,0,0],
   [0,0,1,0,0,0,1,0,0],
   [0,0,0,1,0,1,0,0,0],
   [0,0,0,0,1,0,0,0,0],
   [0,0,0,0,0,0,0,0,0],
   [0,0,0,0,0,0,0,0,0]]

/-- Two nested circle outlines (diamond rings of radius 3 and 1). -/
def nestedShape : BinImg := mkMask
  [[0,0,0,0,0,0,0,0,0],
   [0,0,0,0,1,0,0,0,0],
   [0,0,0,1,0,1,0,0,0],
   [0,0,1,0,1,0,1,0,0],
   [0,1,0,1,0,1,0,1,0],
   [0,0,1,0,1,0,1,0,0],
   [0,0,0,1,0,1,0,0,0],
   [0,0,0,0,1,0,0,0,0],
   [0,0,0,0,0,0,0,0,0]]

/-- An open-ended "C": the radius-2 diamond ring with its topmost pixel
removed, so the interior leaks to the outside. -/
def cShape : BinImg := mkMask
  [[0,0,0,0,0,0,0,0,0],
   [0,0,0,0,0,0,0,0,0],
   [0,0,0,0,0,0,0,0,0],
   [0,0,0,1,0,1,0,0,0],
   [0,0,1,0,0,0,1,0,0],
   [0,0,0,1,0,1,0,0,0],
   [0,0,0,0,1,0,0,0,0],
   [0,0,0,0,0,0,0,0,0],
   [0,0,0,0,0,0,0,0,0]]

/-- Disconnected fragments: two bars and two dots, none enclosing anything. -/
def fragmentsShape : BinImg := mkMask
  [[0,0,0,0,0,0,0,0,0],
   [0,0,0,0,0,0,0,0,0],
   [0,0,1,1,0,0,1,0,0],
   [0,0,0,0,0,0,0,0,0],
   [0,0,0,0,1,0,0,0,0],
   [0,0,0,0,1,0,0,0,0],
   [0,0,0,0,0,0,0,0,0],
   [0,0,1,0,0,0,1,1,0],
   [0,0,0,0,0,0,0,0,0]]

/-- A fully filled 9×9 canvas. -/
def fullShape : BinImg := ⟨9, 9, fun _ _ => true⟩

theorem circleShape_parity0 :
    maskEq (fillClosedRegions circleShape 0) (fillClosedRegionsViaPython circleShape 0) :=
  fillParity_of_grids _ _ (by decide) (by decide)

theorem circleShape_parity1 :
    maskEq (fillClosedRegions circleShape 1) (fillClosedRegionsViaPython circleShape 1) :=
  fillParity_of_grids _ _ (by decide) (by decide)

theorem nestedShape_parity :
    maskEq (fillClosedRegions nestedShape 0) (fillClosedRegionsViaPython nestedShape 0) :=
  fillParity_of_grids _ _ (by decide) (by decide)

theorem cShape_parity :
    maskEq (fillClosedRegions cShape 0) (fillClosedRegionsViaPython cShape 0) :=
  fillParity_of_grids _ _ (by decide) (by decide)

theorem fragmentsShape_parity :
    maskEq (fillClosedRegions fragmentsShape 0) (fillClosedRegionsViaPython fragmentsShape 0) :=
  fillParity_of_grids _ _ (by decide) (by decide)

theorem fullShape_parity :
    maskEq (fillClosedRegions fullShape 0) (fillClosedRegionsViaPython fullShape 0) :=
  fillParity_of_grids _ _ (by decide) (by decide)

/-- C2, counterexample: on a 3×3 canvas whose middle column is the wall, the
two fill paths differ.  Pillow's flood fill is seeded only at `(0, 0)` and so
marks only the left column as "outside", leaving the border-reachable right
column as "interior"; the BFS fallback is seeded at every border pixel and
marks both free columns "outside", leaving nothing.  The claim's
"for every outline mask … bit-identical" is therefore false. -/
theorem fillParity_counterexample :
    (fillClosedRegions ⟨3, 3, fun x _ => decide (x = 1)⟩ 0).pix 2 1 = true ∧
      (fillClosedRegionsViaPython ⟨3, 3, fun x _ => decide (x = 1)⟩ 0).pix 2 1 = false := by
  constructor <;> decide

/-- C2, amended: the fast Pillow path and the BFS fallback of
`fill_closed_regions` produce bit-identical output on the five synthetic
outline shapes of the claim — a circle (also with dilation radius 1), two
nested circles, an open-ended "C", disconnected fragments (each drawn clear
of the canvas border) and a full-canvas-filled mask — though not on every
outline mask. -/
theorem fillParity_on_shapes :
    maskEq (fillClosedRegions circleShape 0) (fillClosedRegionsViaPython circleShape 0) ∧
    maskEq (fillClosedRegions circleShape 1) (fillClosedRegionsViaPython circleShape 1) ∧
    maskEq (fillClosedRegions nestedShape 0) (fillClosedRegionsViaPython nestedShape 0) ∧
    maskEq (fillClosedRegions cShape 0) (fillClosedRegionsViaPython cShape 0) ∧
    maskEq (fillClosedRegions fragmentsShape 0) (fillClosedRegionsViaPython fragmentsShape 0) ∧
    maskEq (fillClosedRegions fullShape 0) (fillClosedRegionsViaPython fullShape 0) :=
  ⟨circleShape_parity0, circleShape_parity1, nestedShape_parity, cShape_parity,
   fragmentsShape_parity, fullShape_parity⟩

/-! ## C4: the Bridge-Width Enforcer -/

theorem thinThreshold_pos (dpi : ℤ) (mm : ℚ) : 0 < thinThresholdOf dpi mm :=
  lt_of_lt_of_le one_pos (le_max_left 1 _)

theorem inEllipseKernel_center (r : ℕ) : inEllipseKernel r r r = true := by
  simp [inEllipseKernel]

/-- Key structural fact behind C4: `cv2.distanceTransform` assigns distance 0
to every background pixel, so with any background present *every* background
pixel is "thin" (`0 < thin_threshold` always), the region of interest covers
every pixel where the dilation differs from the input, and `enforce` returns
exactly the global elliptical dilation of the mask — it does not act only on
fragile bridges. -/
theorem enforceBridge_eq_dilated (dist : ℕ → ℕ → ℚ) (mask : GrayImg)
    (dpi : ℤ) (mm : ℚ)
    (hdist0 : ∀ x, x < mask.w → ∀ y, y < mask.h →
      (bridgeBinary mask).pix x y = false → dist x y = 0)
    (x0 : ℕ) (hx0 : x0 < mask.w) (y0 : ℕ) (hy0 : y0 < mask.h)
    (hbg0 : (bridgeBinary mask).pix x0 y0 = false)
    (x y : ℕ) (hx : x < mask.w) (hy : y < mask.h) :
    (enforceBridge dist mask dpi mm).pix x y =
      (dilateEllipse (bridgeBinary mask) (bridgeRadiusOf dpi mm).toNat).pix x y := by
  set r := (bridgeRadiusOf dpi mm).toNat with hr
  have hthin : ∀ a, a < mask.w → ∀ b, b < mask.h →
      (bridgeBinary mask).pix a b = false →
      (thinRegions dist mask dpi mm).pix a b = true := by
    intro a ha b hb hbg
    unfold thinRegions
    dsimp only
    rw [hdist0 a ha b hb hbg]
    exact decide_eq_true (thinThreshold_pos dpi mm)
  have hcenter : ∀ (m : BinImg), m.w = mask.w → m.h = mask.h →
      ∀ a, a < mask.w → ∀ b, b < mask.h → m.pix a b = true →
      (dilateEllipse m r).pix a b = true := by
    intro m hmw hmh a ha b hb hpix
    unfold dilateEllipse
    dsimp only
    rw [List.any_eq_true]
    refine ⟨r, List.mem_range.mpr (by omega), ?_⟩
    rw [List.any_eq_true]
    refine ⟨r, List.mem_range.mpr (by omega), ?_⟩
    have hax : ((a : ℤ) + r - r).toNat = a := by omega
    have hby : ((b : ℤ) + r - r).toNat = b := by omega
    simp only [Bool.and_eq_true]
    refine ⟨⟨inEllipseKernel_center r, ?_⟩, ?_⟩
    · rw [decide_eq_true_iff]
      refine ⟨by omega, by omega, by omega, by omega⟩
    · rw [hax, hby]
      exact hpix
  have hany : anyTrue (thinRegions dist mask dpi mm) = true := by
    unfold anyTrue
    rw [List.any_eq_true]
    refine ⟨y0, List.mem_range.mpr hy0, ?_⟩
    rw [List.any_eq_true]
    exact ⟨x0, List.mem_range.mpr hx0, hthin x0 hx0 y0 hy0 hbg0⟩
  unfold enforceBridge
  rw [if_neg (by rw [hany]; simp)]
  dsimp only
  rw [← hr]
  by_cases hroi : (dilateEllipse (thinRegions dist mask dpi mm) r).pix x y = true
  · rw [if_pos hroi]
  · rw [if_neg hroi]
    by_cases hbin : (bridgeBinary mask).pix x y = true
    · rw [hbin, Eq.comm]
      exact hcenter (bridgeBinary mask) rfl rfl x hx y hy hbin
    · exact absurd
        (hcenter (thinRegions dist mask dpi mm) rfl rfl x hx y hy
          (hthin x hx y hy (Bool.not_eq_true _ ▸ hbin)))
        hroi

/-- The C4 scenario mask, 60×30 at 300 DPI: a 50-pixel-wide solid block
(`x < 50, y < 10`) and, separated from it, a straight bridge one pixel wide
(`x < 50, y = 15`). -/
def bridgeFailMask : GrayImg :=
  ⟨60, 30, fun x y => if (x < 50 ∧ y < 10) ∨ (x < 50 ∧ y = 15) then 255 else 0⟩

/-- C4: with `dpi = 300` and `min_bridge_mm = 1.2` (so `min_bridge_px = 14`,
kernel radius 7), and for every distance map that — as
`cv2.distanceTransform` guarantees — vanishes on background pixels, `enforce`
turns the background pixel `(10, 10)` adjacent to the 50-pixel-wide block into
foreground (the wide region is fattened, contradicting the claim that it is
left pixel-for-pixel unchanged), while also widening the bridge (background
pixel `(10, 14)` next to the 1-px bridge becomes foreground). -/
theorem enforceBridge_changes_wide_region (dist : ℕ → ℕ → ℚ)
    (hdist0 : ∀ x, x < bridgeFailMask.w → ∀ y, y < bridgeFailMask.h →
      (bridgeBinary bridgeFailMask).pix x y = false → dist x y = 0) :
    ((enforceBridge dist bridgeFailMask 300 (12/10)).pix 10 10 = true ∧
        (bridgeBinary bridgeFailMask).pix 10 10 = false) ∧
      ((enforceBridge dist bridgeFailMask 300 (12/10)).pix 10 14 = true ∧
        (bridgeBinary bridgeFailMask).pix 10 14 = false) := by
  have h1 := enforceBridge_eq_dilated dist bridgeFailMask 300 (12/10) hdist0
    10 (by decide) 10 (by decide) (by decide) 10 10 (by decide) (by decide)
  have h2 := enforceBridge_eq_dilated dist bridgeFailMask 300 (12/10) hdist0
    10 (by decide) 10 (by decide) (by decide) 10 14 (by decide) (by decide)
  rw [h1, h2]
  refine ⟨⟨?_, by decide⟩, ⟨?_, by decide⟩⟩ <;> decide

/-- Witness for `enforceBridge_changes_wide_region`: the all-zero distance map
satisfies the hypothesis. -/
theorem enforceBridge_changes_wide_region_witness :
    ((enforceBridge (fun _ _ => 0) bridgeFailMask 300 (12/10)).pix 10 10 = true ∧
        (bridgeBinary bridgeFailMask).pix 10 10 = false) ∧
      ((enforceBridge (fun _ _ => 0) bridgeFailMask 300 (12/10)).pix 10 14 = true ∧
        (bridgeBinary bridgeFailMask).pix 10 14 = false) :=
  enforceBridge_changes_wide_region (fun _ _ => 0) (fun _ _ _ _ _ => rfl)

end VytPipe
